import Mathlib

/-!
Shallow embedding of the digit-merging core of AliPHOSDigitizer
(src/PHOS/AliPHOSDigitizer.cxx, method Digitize and its helpers
FrontEdgeTime and TimeOfNoise). Float_t quantities are modelled as
rationals; TClonesArray element access is list lookup returning an
optional value, since ROOT At returns a null pointer out of range, and
calling a method through that null pointer is modelled as the error
value nullDeref. External collaborators that are not part of the
repository sources (the Gaussian noise sampler composed with the
SDigitizer amplitude conversion, the SDigitizer calibration, and the
AliRunDigitizer per-input masks) are passed in as function parameters.
-/

/-- A summable digit or digit: channel id, amplitude, time and the list
of primary (origin) identifiers. Amplitude and time are Float_t in the
source and are modelled as rationals. The field indexInList is
overwritten by Digitize after compaction; the noise constructor call
AliPHOSDigit(-1, absID, amp, time) starts with an empty primary list
(modelled from the spec, the AliPHOSDigit class source is not in the
repository). -/
structure AliPHOSDigit where
  id : ℕ
  amp : ℚ
  time : ℚ
  primaries : List ℤ
  indexInList : ℕ
  deriving DecidableEq

/-- Modelled from the spec: AliPHOSDigit operator+ (the class source is
not in the repository): energies add and the provenance entries of the
right operand are appended; id and time of the left operand are kept. -/
def addDigit (d s : AliPHOSDigit) : AliPHOSDigit :=
  { d with amp := d.amp + s.amp, primaries := d.primaries ++ s.primaries }

/-- Modelled from the spec: AliPHOSDigit ShiftPrimary adds the
per-source offset to every primary identifier of the record. -/
def ShiftPrimary (offset : ℤ) (d : AliPHOSDigit) : AliPHOSDigit :=
  { d with primaries := d.primaries.map fun p => p + offset }

/-- Per-source primary offset (lines 236-241 and 281-286 of the source):
the external mask of the AliRunDigitizer when running under it,
otherwise the fallback 10000000 * i. -/
def primaryOffset (mask : Option (ℕ → ℤ)) (i : ℕ) : ℤ :=
  match mask with
  | some m => m i
  | none => 10000000 * (i : ℤ)

/-- ROOT TArrayF: At returns 0 for an index out of range, and a write
through operator[] with an index out of range is redirected to slot 0
after BoundsOk reports the error. -/
structure TArrayF where
  data : List ℚ
  deriving DecidableEq

/-- The At accessor of TArrayF: the stored value, or 0 out of range. -/
def TArrayF.get (a : TArrayF) (i : ℕ) : ℚ :=
  a.data.getD i 0

/-- C++ conversion of a numeric value to Int_t: truncation toward
zero (GetAmp already returns an Int_t, GetTime a Float_t). -/
def cppTruncInt (v : ℚ) : ℤ :=
  if 0 ≤ v then ⌊v⌋ else -⌊-v⌋

/-- The implicit ROOT TArrayF(Int_t) converting constructor: a
zero-filled array of the given size; the constructor only calls Set for
a positive argument, so a non-positive value gives an empty array. -/
def TArrayF.ofInt (n : ℤ) : TArrayF :=
  ⟨List.replicate n.toNat 0⟩

/-- TArray Reset: every slot is set back to 0. -/
def TArrayF.reset (a : TArrayF) : TArrayF :=
  ⟨List.replicate a.data.length 0⟩

/-- The synthetic time assigned to pure-noise digits (TimeOfNoise,
lines 629-634): just the big number 1. -/
def TimeOfNoise : ℚ := 1

/-- Modelled undefined behaviour: a method call through a null pointer
returned by an out-of-range TClonesArray At, and the assignment of a
TArrayF object past the single allocated scratch array. -/
inductive DigErr where
  | nullDeref
  | oobArrayAssign
  deriving DecidableEq

/-- The scratch-array statement energies[contrib] = value (lines
229-230 and 245-246). The variables energies and times hold TArrayF
pointers to one heap-allocated array each (lines 212-213), so the
statement is built-in pointer subscripting followed by assignment of a
whole TArrayF temporary produced by the implicit TArrayF(Int_t)
conversion of the numeric value, never a float element write. At index
0 it replaces the single array object with a zero-filled array of size
(Int_t)value; at any higher index it assigns to a TArrayF object that
was never allocated, which is undefined behaviour, modelled as the
error oobArrayAssign. -/
def scratchAssign (i : ℕ) (v : ℚ) : Except DigErr TArrayF :=
  if i = 0 then .ok (TArrayF.ofInt (cppTruncInt v)) else .error .oobArrayAssign

/-- The inputs of one Digitize call: the per-input sorted sdigit
streams gathered from the white board, the optional AliRunDigitizer
masks, the per-channel digitized noise samples for EMC and CPV (the
composition of gRandom Gaus with the SDigitizer amplitude conversion,
both external collaborators; the claims fix it at 0), the SDigitizer
calibration (modelled from the spec: an externally supplied
calibration function, the SDigitizer source is not in the repository),
the two class thresholds and the channel counts nEMC and nCPV (nCPV is
the total channel count, EMC channels are 1..nEMC and CPV channels are
nEMC+1..nCPV). -/
structure DigCfg where
  streams : List (List AliPHOSDigit)
  mask : Option (ℕ → ℤ)
  noiseEMC : ℕ → ℚ
  noiseCPV : ℕ → ℚ
  calibrate : ℚ → ℚ
  fEMCDigitThreshold : ℚ
  fCPVDigitThreshold : ℚ
  nEMC : ℕ
  nCPV : ℕ

/-- The running state of the merge: the digit list built so far (slot
k holds channel k+1), the per-stream read cursors (TArrayI index, a
value object whose operator[] really is an element access), the current
next-signal channel, and the two scratch arrays. -/
structure MergeState where
  digits : List AliPHOSDigit
  index : List ℕ
  nextSig : ℕ
  energies : TArrayF
  times : TArrayF
  deriving DecidableEq

/-- Result of draining one stream on one EMC channel. -/
structure DrainOut where
  digit : AliPHOSDigit
  energies : TArrayF
  times : TArrayF
  contrib : ℕ
  idx : ℕ
  deriving DecidableEq

/-- Inner while loop of the EMC signal branch (lines 233-250): drain
all consecutive records of stream number i whose id equals absID,
shifting their primaries, folding them into the digit, and executing
the two scratch assignments at the running contrib position (defined
only at contrib 0: a second drained record on the channel makes the
assignment undefined). The fuel only bounds the iteration; every call
supplies more fuel than records remain, so the returned value is the
exact loop result. -/
def drainEMC (s : List AliPHOSDigit) (mask : Option (ℕ → ℤ)) (i absID : ℕ) :
    ℕ → AliPHOSDigit → TArrayF → TArrayF → ℕ → ℕ → Except DigErr DrainOut
  | 0, digit, en, tm, contrib, idx => .ok ⟨digit, en, tm, contrib, idx⟩
  | fuel + 1, digit, en, tm, contrib, idx =>
    match s[idx]? with
    | none => .ok ⟨digit, en, tm, contrib, idx⟩
    | some cur =>
      if cur.id = absID then
        match scratchAssign contrib cur.amp with
        | .error e => .error e
        | .ok en2 =>
          match scratchAssign contrib cur.time with
          | .error e => .error e
          | .ok tm2 =>
            drainEMC s mask i absID fuel
              (addDigit digit (ShiftPrimary (primaryOffset mask i) cur))
              en2 tm2 (contrib + 1) (idx + 1)
      else .ok ⟨digit, en, tm, contrib, idx⟩

/-- Result of the loop over all input streams on one EMC channel. -/
structure LoopOut where
  digit : AliPHOSDigit
  energies : TArrayF
  times : TArrayF
  contrib : ℕ
  index : List ℕ
  deriving DecidableEq

/-- Loop over the inputs on one EMC signal channel (lines 232-251):
stream number i is drained starting from its cursor, the head of the
carried index list; the list of updated cursors is rebuilt in order. -/
def emcStreamsLoop (mask : Option (ℕ → ℤ)) (absID : ℕ) :
    List (List AliPHOSDigit) → ℕ → List ℕ → AliPHOSDigit → TArrayF → TArrayF →
    ℕ → Except DigErr LoopOut
  | [], _, index, digit, en, tm, contrib => .ok ⟨digit, en, tm, contrib, index⟩
  | s :: rest, i, index, digit, en, tm, contrib =>
    match drainEMC s mask i absID (s.length + 1) digit en tm contrib (index.headD 0) with
    | .error e => .error e
    | .ok d =>
      match emcStreamsLoop mask absID rest (i + 1) index.tail d.digit d.energies
          d.times d.contrib with
      | .error e => .error e
      | .ok r => .ok { r with index := d.idx :: r.index }

/-- Loop body of FrontEdgeTime (lines 433-444): while the current time
is nonzero, fold it into the running minimum and read the next slot.
The fuel only bounds the iteration; FrontEdgeTime supplies more fuel
than the loop can consume, because reading past the last slot yields 0
and stops the scan. -/
def frontEdgeLoop (times : TArrayF) : ℕ → ℚ → ℚ → ℕ → ℚ
  | 0, time, _, _ => time
  | fuel + 1, time, curtime, i =>
    if curtime = 0 then time
    else
      frontEdgeLoop times fuel (if curtime < time then curtime else time)
        (times.get i) (i + 1)

/-- FrontEdgeTime (lines 433-444): starting from slot 0, the minimum of
the recorded times up to the first zero slot. The energies argument is
taken (as in the source) but never used. -/
def FrontEdgeTime (energies times : TArrayF) : ℚ :=
  frontEdgeLoop times (times.data.length + 2) (times.get 0) (times.get 0) 1

/-- Result of processing one EMC signal channel. -/
structure SignalOut where
  digit : AliPHOSDigit
  index : List ℕ
  energies : TArrayF
  times : TArrayF
  deriving DecidableEq

/-- The EMC signal branch (lines 227-257): execute the two seed
assignments at contrib = 0 (each replaces the scratch array with a
zero-filled TArrayF sized by the noise digit amplitude respectively
time, through the implicit TArrayF(Int_t) conversion; the previous
array contents, including the arrays passed in, are destroyed), drain
every stream, set the digit time to FrontEdgeTime of the times array,
and Reset both arrays. -/
def emcSignalChannel (streams : List (List AliPHOSDigit)) (mask : Option (ℕ → ℤ))
    (absID : ℕ) (digit : AliPHOSDigit) (index : List ℕ) (en tm : TArrayF) :
    Except DigErr SignalOut :=
  match scratchAssign 0 digit.amp with
  | .error e => .error e
  | .ok en1 =>
    match scratchAssign 0 digit.time with
    | .error e => .error e
    | .ok tm1 =>
      match emcStreamsLoop mask absID streams 0 index digit en1 tm1 0 with
      | .error e => .error e
      | .ok r =>
        .ok { digit := { r.digit with time := FrontEdgeTime r.energies r.times },
              index := r.index,
              energies := r.energies.reset,
              times := r.times.reset }

/-- Inner while loop of the CPV signal branch (lines 278-293): drain
all consecutive records of stream number i whose id equals absID; no
scratch recording and no timing. -/
def drainCPV (s : List AliPHOSDigit) (mask : Option (ℕ → ℤ)) (i absID : ℕ) :
    ℕ → AliPHOSDigit → ℕ → AliPHOSDigit × ℕ
  | 0, digit, idx => (digit, idx)
  | fuel + 1, digit, idx =>
    match s[idx]? with
    | none => (digit, idx)
    | some cur =>
      if cur.id = absID then
        drainCPV s mask i absID fuel
          (addDigit digit (ShiftPrimary (primaryOffset mask i) cur)) (idx + 1)
      else (digit, idx)

/-- Loop over the inputs on one CPV signal channel (lines 277-294). -/
def cpvStreamsLoop (mask : Option (ℕ → ℤ)) (absID : ℕ) :
    List (List AliPHOSDigit) → ℕ → List ℕ → AliPHOSDigit →
    AliPHOSDigit × List ℕ
  | [], _, index, digit => (digit, index)
  | s :: rest, i, index, digit =>
    let d := drainCPV s mask i absID (s.length + 1) digit (index.headD 0)
    let r := cpvStreamsLoop mask absID rest (i + 1) index.tail d.1
    (r.1, d.2 :: r.2)

/-- The next-signal scan (lines 206-210, 259-263 and 297-301): for
every stream, read the record at its cursor and keep the smaller id.
The source calls GetId through the pointer returned by At without a
null check, so an exhausted stream (cursor past the last record) is a
null dereference. The carried minimum is NOT reset before the scan;
this is the scan exactly as written. -/
def rescanNextSig : List (List AliPHOSDigit × ℕ) → ℕ → Except DigErr ℕ
  | [], n => .ok n
  | (s, idx) :: rest, n =>
    match s[idx]? with
    | none => .error .nullDeref
    | some d => rescanNextSig rest (if d.id < n then d.id else n)

/-- The EMC channel loop (lines 221-265): for each absID create the
noise digit, and when absID equals the next-signal channel run the
signal branch followed by the rescan. The first argument counts the
remaining channels. -/
def emcLoopAux (cfg : DigCfg) : ℕ → ℕ → MergeState → Except DigErr MergeState
  | 0, _, st => .ok st
  | k + 1, absID, st =>
    let digit : AliPHOSDigit := ⟨absID, cfg.noiseEMC absID, TimeOfNoise, [], 0⟩
    if absID = st.nextSig then
      match emcSignalChannel cfg.streams cfg.mask absID digit st.index
          st.energies st.times with
      | .error e => .error e
      | .ok r =>
        match rescanNextSig (cfg.streams.zip r.index) st.nextSig with
        | .error e => .error e
        | .ok ns =>
          emcLoopAux cfg k (absID + 1)
            { digits := st.digits ++ [r.digit], index := r.index, nextSig := ns,
              energies := r.energies, times := r.times }
    else
      emcLoopAux cfg k (absID + 1) { st with digits := st.digits ++ [digit] }

/-- The CPV channel loop (lines 270-304): as the EMC loop but with the
CPV noise, no scratch recording and no FrontEdgeTime, so the digit
time stays at TimeOfNoise. -/
def cpvLoopAux (cfg : DigCfg) : ℕ → ℕ → MergeState → Except DigErr MergeState
  | 0, _, st => .ok st
  | k + 1, absID, st =>
    let digit : AliPHOSDigit := ⟨absID, cfg.noiseCPV absID, TimeOfNoise, [], 0⟩
    if absID = st.nextSig then
      let r := cpvStreamsLoop cfg.mask absID cfg.streams 0 st.index digit
      match rescanNextSig (cfg.streams.zip r.2) st.nextSig with
      | .error e => .error e
      | .ok ns =>
        cpvLoopAux cfg k (absID + 1)
          { st with digits := st.digits ++ [r.1], index := r.2, nextSig := ns }
    else
      cpvLoopAux cfg k (absID + 1) { st with digits := st.digits ++ [digit] }

/-- The merge part of Digitize (lines 203-304): find the first signal
channel by scanning the head of every stream (a null dereference when a
stream is empty), then run the EMC loop over channels 1..nEMC and the
CPV loop over channels nEMC+1..nCPV. -/
def mergeDigits (cfg : DigCfg) : Except DigErr MergeState :=
  match rescanNextSig (cfg.streams.map fun s => (s, 0)) 200000 with
  | .error e => .error e
  | .ok nextSig =>
    let input := cfg.streams.length
    let st : MergeState :=
      ⟨[], List.replicate input 0, nextSig,
        ⟨List.replicate input 0⟩, ⟨List.replicate input 0⟩⟩
    match emcLoopAux cfg cfg.nEMC 1 st with
    | .error e => .error e
    | .ok st2 => cpvLoopAux cfg (cfg.nCPV - cfg.nEMC) (cfg.nEMC + 1) st2

/-- One threshold loop (lines 312-314 and 316-318): for count slots
starting at absID, read the slot (At past the end of the array yields a
null pointer and the GetAmp call through it is the modelled crash) and
RemoveAt it when the calibrated amplitude is strictly below the
threshold. -/
def thrScan (calibrate : ℚ → ℚ) (thr : ℚ) :
    List (Option AliPHOSDigit) → ℕ → ℕ → Except DigErr (List (Option AliPHOSDigit))
  | arr, _, 0 => .ok arr
  | arr, absID, k + 1 =>
    match arr.getD absID none with
    | none => .error .nullDeref
    | some d =>
      thrScan calibrate thr
        (if calibrate d.amp < thr then arr.set absID none else arr) (absID + 1) k

/-- The index-assignment loop (lines 326-329): digit number i of the
compressed list gets indexInList i. -/
def setIndexLoop : ℕ → List AliPHOSDigit → List AliPHOSDigit
  | _, [] => []
  | i, d :: ds => { d with indexInList := i } :: setIndexLoop (i + 1) ds

/-- The compaction part of Digitize (lines 311-329): threshold loop on
EMC slots 0..nEMC-1, threshold loop on CPV slots nEMC..nCPV-1, Compress
(drop the removed slots, keeping the order), then assign dense list
indices. -/
def compactAndIndex (nEMC nCPV : ℕ) (calibrate : ℚ → ℚ) (eThr cThr : ℚ)
    (digits : List AliPHOSDigit) : Except DigErr (List AliPHOSDigit) :=
  match thrScan calibrate eThr (digits.map some) 0 nEMC with
  | .error e => .error e
  | .ok arr =>
    match thrScan calibrate cThr arr nEMC (nCPV - nEMC) with
    | .error e => .error e
    | .ok arr2 => .ok (setIndexLoop 0 (arr2.filterMap id))

/-- The whole Digitize method for one event (lines 147-331): merge,
then threshold compaction and index assignment. -/
def Digitize (cfg : DigCfg) : Except DigErr (List AliPHOSDigit) :=
  match mergeDigits cfg with
  | .error e => .error e
  | .ok st =>
    compactAndIndex cfg.nEMC cfg.nCPV cfg.calibrate
      cfg.fEMCDigitThreshold cfg.fCPVDigitThreshold st.digits

/-- The marking a threshold loop applies to a live slot: removed when
the calibrated amplitude is strictly below the threshold. -/
def markBelow (calibrate : ℚ → ℚ) (thr : ℚ) (o : Option AliPHOSDigit) :
    Option AliPHOSDigit :=
  match o with
  | none => none
  | some d => if calibrate d.amp < thr then none else some d

/-- Noise fixed at zero, as in the deterministic scenarios of the
spec. -/
def zeroNoise : ℕ → ℚ := fun _ => 0

/-- Identity calibration, a monotonic calibration function. -/
def idCalib : ℚ → ℚ := fun e => e

/-- A summable-digit record with channel id, amplitude, time and
primary list. -/
def mkRec (id : ℕ) (amp time : ℚ) (prims : List ℤ) : AliPHOSDigit :=
  ⟨id, amp, time, prims, 0⟩

/-- Shared base configuration: standalone mode (no AliRunDigitizer
mask), zero noise, identity calibration and the default thresholds
fEMCDigitThreshold = 0.01 and fCPVDigitThreshold = 0.09 from the
constructors (lines 88-91). -/
def baseCfg : DigCfg :=
  { streams := [], mask := none, noiseEMC := zeroNoise, noiseCPV := zeroNoise,
    calibrate := idCalib, fEMCDigitThreshold := 1/100, fCPVDigitThreshold := 9/100,
    nEMC := 4, nCPV := 6 }

/-- The end-to-end scenario of the spec: EMC channels 1-4, CPV channels
5-6, one mixed input depositing amplitude 1 on channel 2 and amplitude
1/2 on channel 6, noise fixed at 0. -/
def cfgC1 : DigCfg :=
  { baseCfg with
    streams := [[mkRec 2 1 (1/2) [7], mkRec 6 (1/2) (1/2) [8]]] }

/-- Conservation scenario: one stream depositing 5 on channel 1 and 7
on channel 2, two EMC channels, zero noise. -/
def cfgC2 : DigCfg :=
  { baseCfg with
    streams := [[mkRec 1 5 (1/2) [], mkRec 2 7 (1/2) []]],
    nEMC := 2,
    nCPV := 2 }

/-- Time-derivation scenario on a CPV channel: one EMC channel, one CPV
channel (channel 2), one stream depositing 5 on channel 2 at time 1/2
followed by an out-of-range record that keeps the stream from
exhausting during the rescan. -/
def cfgC3 : DigCfg :=
  { baseCfg with
    streams := [[mkRec 2 5 (1/2) [], mkRec 3 1 (1/2) []]],
    nEMC := 1,
    nCPV := 2 }

/-- Ordering-violation scenario: one stream with the non-monotonic
channel ids 2, 1, 3 on a three-channel EMC-only geometry. -/
def cfgC7 : DigCfg :=
  { baseCfg with
    streams := [[mkRec 2 1 (1/2) [], mkRec 1 2 (1/2) [], mkRec 3 3 (1/2) []]],
    nEMC := 3,
    nCPV := 3 }

/-- Empty-input scenario: the single mixed-input stream has zero
records. -/
def cfgC8 : DigCfg :=
  { baseCfg with
    streams := [[]],
    nEMC := 1,
    nCPV := 1 }

/-- Exhausted-stream scenario: the single stream has one record on
channel 1, so the post-drain rescan reads past its end. -/
def cfgC9 : DigCfg :=
  { baseCfg with
    streams := [[mkRec 1 1 (1/2) []]],
    nEMC := 1,
    nCPV := 1 }

/-- Scratch-bounds scenario: one stream contributing two records to
channel 1 (and a later record on channel 3 that keeps the stream from
exhausting during the rescan), so two amplitude-time pairs are recorded
into scratch arrays of size one. -/
def cfgC10 : DigCfg :=
  { baseCfg with
    streams := [[mkRec 1 1 (1/2) [], mkRec 1 2 (1/2) [], mkRec 3 3 (1/2) []]],
    nEMC := 3,
    nCPV := 3 }

/-- Three one-record streams hitting channel 1 at times 7, 3 and 9, the
concrete time-derivation example of the spec; under the
pointer-subscript scratch assignments the second stream already records
its pair at contrib 1, which is undefined behaviour. -/
def streams3 : List (List AliPHOSDigit) :=
  [[mkRec 1 3 7 []], [mkRec 1 4 3 []], [mkRec 1 5 9 []]]

/-- A single one-record stream hitting channel 1 with amplitude 3 at
time 7: an EMC signal channel whose processing stays within defined
behaviour, every scratch assignment landing at contrib 0. -/
def streamsOne : List (List AliPHOSDigit) :=
  [[mkRec 1 3 7 []]]

/-- A two-digit full list (channels 1 and 2) used to instantiate the
compaction theorems: channel 1 has amplitude 1, channel 2 amplitude 0. -/
def digitsC5 : List AliPHOSDigit :=
  [mkRec 1 1 1 [], mkRec 2 0 1 []]

/-- C1: the end-to-end scenario of the spec (two classes, thresholds
1/100 and 9/100, one input with amplitude 1 on channel 2 and 1/2 on
channel 6, zero noise) does NOT produce the two digits the claim
expects: because the next-signal tracker is never reset before the
rescan, it never advances past channel 2, channel 6 keeps only its
zero noise amplitude and is dropped by the CPV threshold; the final
list is the single digit of channel 2, and even its time is 0 rather
than the contribution time 1/2, because the scratch assignment
replaced the times array with a zero-filled one before FrontEdgeTime
ran. -/
theorem claimC1_end_to_end :
    Digitize cfgC1 = Except.ok [⟨2, 1, 0, [7], 0⟩] := by
  norm_num [Digitize, mergeDigits, rescanNextSig, emcLoopAux, cpvLoopAux,
    emcSignalChannel, emcStreamsLoop, drainEMC, drainCPV, cpvStreamsLoop,
    FrontEdgeTime, frontEdgeLoop, scratchAssign, TArrayF.ofInt, cppTruncInt,
    TArrayF.get, TArrayF.reset,
    thrScan, compactAndIndex, setIndexLoop, markBelow, addDigit, ShiftPrimary,
    primaryOffset, TimeOfNoise, mkRec, cfgC1, baseCfg, zeroNoise, idCalib]

/-- C2: conservation fails: with zero noise and one stream depositing 5
on channel 1 and 7 on channel 2, the post-merge amplitudes are 5 and 0;
the channel-2 contribution is omitted (the claim expects noise plus the
sum, i.e. 0 + 7), again because the next-signal tracker never advances
past the first signal channel. -/
theorem claimC2_conservation :
    (mergeDigits cfgC2).map (fun st => st.digits.map AliPHOSDigit.amp) =
      Except.ok [5, 0] ∧ (0 : ℚ) ≠ 0 + 7 := by
  constructor
  · norm_num [mergeDigits, rescanNextSig, emcLoopAux, cpvLoopAux,
      emcSignalChannel, emcStreamsLoop, drainEMC, drainCPV, cpvStreamsLoop,
      FrontEdgeTime, frontEdgeLoop, scratchAssign, TArrayF.ofInt, cppTruncInt,
      TArrayF.get, TArrayF.reset,
      addDigit, ShiftPrimary, primaryOffset, TimeOfNoise, mkRec, cfgC2,
      baseCfg, zeroNoise, Except.map]
  · norm_num

/-- C3 counterexample: a CPV channel (channel 2 of cfgC3) receives a
signal contribution at time 1/2 (its post-merge amplitude is 5), yet
its digit time stays at the noise sentinel 1: the CPV loop never calls
FrontEdgeTime, so the claim fails for channels of the CPV class. -/
theorem claimC3_counterexample :
    (mergeDigits cfgC3).map (fun st => st.digits.map fun d => (d.amp, d.time)) =
      Except.ok [(0, 1), (5, 1)] ∧ (1 : ℚ) ≠ 1/2 := by
  constructor
  · norm_num [mergeDigits, rescanNextSig, emcLoopAux, cpvLoopAux,
      emcSignalChannel, emcStreamsLoop, drainEMC, drainCPV, cpvStreamsLoop,
      FrontEdgeTime, frontEdgeLoop, scratchAssign, TArrayF.ofInt, cppTruncInt,
      TArrayF.get, TArrayF.reset,
      addDigit, ShiftPrimary, primaryOffset, TimeOfNoise, mkRec, cfgC3,
      baseCfg, zeroNoise, Except.map]
  · norm_num

/-- C7 counterexample: the claim demands a StreamOrderingViolation
before any digit is emitted whenever some stream is non-monotonic; the
code has no such check: on the non-monotonic stream with channel ids
2, 1, 3 digitization completes normally and emits a digit. -/
theorem claimC7_counterexample :
    Digitize cfgC7 = Except.ok [⟨2, 1, 0, [], 0⟩] := by
  norm_num [Digitize, mergeDigits, rescanNextSig, emcLoopAux, cpvLoopAux,
    emcSignalChannel, emcStreamsLoop, drainEMC, drainCPV, cpvStreamsLoop,
    FrontEdgeTime, frontEdgeLoop, scratchAssign, TArrayF.ofInt, cppTruncInt,
    TArrayF.get, TArrayF.reset,
    thrScan, compactAndIndex, setIndexLoop, markBelow, addDigit, ShiftPrimary,
    primaryOffset, TimeOfNoise, mkRec, cfgC7, baseCfg, zeroNoise, idCalib]

/-- C7 amended: a non-monotonic stream is silently tolerated: the merge
completes without any error and the out-of-order records (channel 1
with amplitude 2 and the following channel 3 with amplitude 3) are
never folded into any digit; only the first signal channel (channel 2)
receives its contribution. -/
theorem claimC7_silent_tolerance :
    (mergeDigits cfgC7).map (fun st => st.digits.map AliPHOSDigit.amp) =
      Except.ok [0, 1, 0] := by
  norm_num [mergeDigits, rescanNextSig, emcLoopAux, cpvLoopAux,
    emcSignalChannel, emcStreamsLoop, drainEMC, drainCPV, cpvStreamsLoop,
    FrontEdgeTime, frontEdgeLoop, scratchAssign, TArrayF.ofInt, cppTruncInt,
    TArrayF.get, TArrayF.reset,
    addDigit, ShiftPrimary, primaryOffset, TimeOfNoise, mkRec, cfgC7,
    baseCfg, zeroNoise, Except.map]

/-- C8: a mixed-input stream with zero records is NOT treated as valid
pure-noise input: the initial next-signal scan reads At(0) of the empty
stream and calls GetId through the returned null pointer, so
digitization crashes instead of completing. -/
theorem claimC8_empty_stream_crash :
    Digitize cfgC8 = Except.error DigErr.nullDeref := rfl

/-- C9: peeking an exhausted stream is NOT a defined sentinel: after
the single record of the stream (channel 1) is drained, the post-drain
rescan reads At(1) of the one-record stream and calls GetId through the
returned null pointer, so the merge faults instead of completing. -/
theorem claimC9_exhausted_rescan_crash :
    Digitize cfgC9 = Except.error DigErr.nullDeref := by
  norm_num [Digitize, mergeDigits, rescanNextSig, emcLoopAux, cpvLoopAux,
    emcSignalChannel, emcStreamsLoop, drainEMC, drainCPV, cpvStreamsLoop,
    FrontEdgeTime, frontEdgeLoop, scratchAssign, TArrayF.ofInt, cppTruncInt,
    TArrayF.get, TArrayF.reset,
    addDigit, ShiftPrimary, primaryOffset, TimeOfNoise, mkRec, cfgC9,
    baseCfg, zeroNoise]

/-- C10: the scratch collections are sized one slot per input stream,
but channel 1 of cfgC10 receives two records from the single stream;
recording the second pair executes energies[1] = ..., an assignment to
a TArrayF object one past the single allocation. That is undefined
behaviour, so the merge crashes instead of recording the pair within
the allocated size. -/
theorem claimC10_scratch_overflow :
    mergeDigits cfgC10 = Except.error DigErr.oobArrayAssign := by
  norm_num [mergeDigits, rescanNextSig, emcLoopAux, cpvLoopAux,
    emcSignalChannel, emcStreamsLoop, drainEMC, drainCPV, cpvStreamsLoop,
    FrontEdgeTime, frontEdgeLoop, scratchAssign, TArrayF.ofInt, cppTruncInt,
    TArrayF.get, TArrayF.reset,
    addDigit, ShiftPrimary, primaryOffset, TimeOfNoise, mkRec, cfgC10,
    baseCfg, zeroNoise]

/-- C4 counterexample: under the externally supplied mask policy with
all masks equal (mask i = 0), the distinct sources 0 and 1 remap the
same record to identical provenance entries, so the remapped origin
sets are not disjoint for arbitrary masks. -/
theorem claimC4_counterexample :
    (ShiftPrimary (primaryOffset (some fun _ => 0) 0) (mkRec 1 1 1 [5])).primaries =
      (ShiftPrimary (primaryOffset (some fun _ => 0) 1) (mkRec 1 1 1 [5])).primaries ∧
    (0 : ℕ) ≠ 1 := by
  exact ⟨rfl, by decide⟩

/-- C4 amended: provenance disjointness holds for the fallback policy
offset i = 10000000 * i whenever the original origin identifiers lie in
[0, 10000000) (and the source indices are small enough that the 32-bit
product cannot overflow); under the mask policy it holds provided the
supplied masks are at least 10000000 apart, a property of the external
mask provider that the digitizer itself does not enforce. -/
theorem claimC4_provenance_disjointness :
    (∀ (i j : ℕ) (p q : ℤ), i ≠ j → i ≤ 214 → j ≤ 214 →
        0 ≤ p → p < 10000000 → 0 ≤ q → q < 10000000 →
        p + primaryOffset none i ≠ q + primaryOffset none j) ∧
    (∀ (m : ℕ → ℤ) (i j : ℕ) (p q : ℤ), i ≠ j →
        (m i + 10000000 ≤ m j ∨ m j + 10000000 ≤ m i) →
        0 ≤ p → p < 10000000 → 0 ≤ q → q < 10000000 →
        p + primaryOffset (some m) i ≠ q + primaryOffset (some m) j) := by
  constructor
  · intro i j p q hij hi hj hp hp2 hq hq2 h
    simp only [primaryOffset] at h
    omega
  · intro m i j p q hij hm hp hp2 hq hq2 h
    simp only [primaryOffset] at h
    rcases hm with h1 | h1 <;> omega

/-- C4 witness: the amended disjointness applied at concrete sources 0
and 1, origin id 0 and 1 for the fallback policy and origin id 5 for
masks 0 and 20000000. -/
theorem claimC4_provenance_disjointness_witness :
    (0 : ℤ) + primaryOffset none 0 ≠ 1 + primaryOffset none 1 ∧
    (5 : ℤ) + primaryOffset (some fun k => 20000000 * (k : ℤ)) 0 ≠
      5 + primaryOffset (some fun k => 20000000 * (k : ℤ)) 1 := by
  constructor
  · exact claimC4_provenance_disjointness.1 0 1 0 1 (by decide) (by decide)
      (by decide) (by decide) (by decide) (by decide) (by decide)
  · exact claimC4_provenance_disjointness.2 (fun k => 20000000 * (k : ℤ)) 0 1 5 5
      (by decide) (Or.inl (by decide)) (by decide) (by decide) (by decide) (by decide)

theorem getD_append_front {α : Type} (pre l : List α) (d : α) :
    (pre ++ l).getD pre.length d = l.getD 0 d := by
  induction pre with
  | nil => simp
  | cons x xs ih => simpa using ih

theorem set_append_front {α : Type} (pre l : List α) (v : α) :
    (pre ++ l).set pre.length v = pre ++ l.set 0 v := by
  induction pre with
  | nil => simp
  | cons x xs ih => simp [ih]

theorem thrScan_append (cal : ℚ → ℚ) (thr : ℚ) :
    ∀ (mid pre post : List (Option AliPHOSDigit)),
      (∀ o ∈ mid, o.isSome) →
      thrScan cal thr (pre ++ (mid ++ post)) pre.length mid.length =
        Except.ok (pre ++ (mid.map (markBelow cal thr) ++ post)) := by
  intro mid
  induction mid with
  | nil => intro pre post _; simp [thrScan]
  | cons o mid ih =>
    intro pre post hall
    obtain ⟨d, rfl⟩ : ∃ d, o = some d := by
      cases o with
      | none => simpa using hall none (List.mem_cons_self _ _)
      | some d => exact ⟨d, rfl⟩
    have hget : (pre ++ (some d :: mid ++ post)).getD pre.length none = some d := by
      rw [getD_append_front]; rfl
    show thrScan cal thr (pre ++ (some d :: mid ++ post)) pre.length (mid.length + 1) = _
    rw [thrScan]
    rw [hget]
    dsimp only
    by_cases hc : cal d.amp < thr
    · rw [if_pos hc, set_append_front]
      have h0 : (some d :: mid ++ post).set 0 none = none :: (mid ++ post) := rfl
      rw [h0]
      have hres := ih (pre ++ [none]) post (fun o ho => hall o (List.mem_cons_of_mem _ ho))
      rw [List.append_assoc] at hres
      have hl : (pre ++ [none]).length = pre.length + 1 := by simp
      rw [hl] at hres
      have hmark : List.map (markBelow cal thr) (some d :: mid) =
          none :: List.map (markBelow cal thr) mid := by
        simp only [List.map_cons, markBelow, if_pos hc]
      rw [hmark]
      simpa only [List.singleton_append, List.cons_append, List.nil_append, List.append_assoc] using hres
    · rw [if_neg hc]
      have hres := ih (pre ++ [some d]) post (fun o ho => hall o (List.mem_cons_of_mem _ ho))
      rw [List.append_assoc] at hres
      have hl : (pre ++ [some d]).length = pre.length + 1 := by simp
      rw [hl] at hres
      have hmark : List.map (markBelow cal thr) (some d :: mid) =
          some d :: List.map (markBelow cal thr) mid := by
        simp only [List.map_cons, markBelow, if_neg hc]
      rw [hmark]
      simpa only [List.singleton_append, List.cons_append, List.nil_append, List.append_assoc] using hres

theorem filterMap_id_map_markBelow (cal : ℚ → ℚ) (thr : ℚ) (l : List AliPHOSDigit) :
    ((l.map some).map (markBelow cal thr)).filterMap id =
      l.filter fun d => decide (¬ cal d.amp < thr) := by
  induction l with
  | nil => rfl
  | cons d l ih =>
    show ((markBelow cal thr (some d)) :: (l.map some).map (markBelow cal thr)).filterMap id =
      (d :: l).filter fun d => decide (¬ cal d.amp < thr)
    rw [List.filter_cons]
    by_cases hc : cal d.amp < thr
    · rw [List.filterMap_cons_none (by simp only [markBelow, if_pos hc, id_eq])]
      rw [if_neg (by simp [hc]), ih]
    · rw [@List.filterMap_cons_some _ _ id (markBelow cal thr (some d))
        ((l.map some).map (markBelow cal thr)) d
        (by simp only [markBelow, if_neg hc, id_eq])]
      rw [if_pos (by simp [hc]), ih]

theorem compactAndIndex_eq (nEMC nCPV : ℕ) (cal : ℚ → ℚ) (eThr cThr : ℚ)
    (digits : List AliPHOSDigit) (hlen : digits.length = nCPV) (hle : nEMC ≤ nCPV) :
    compactAndIndex nEMC nCPV cal eThr cThr digits =
      Except.ok (setIndexLoop 0
        ((digits.take nEMC).filter (fun d => decide (¬ cal d.amp < eThr)) ++
         (digits.drop nEMC).filter (fun d => decide (¬ cal d.amp < cThr)))) := by
  have hmidlen : ((digits.take nEMC).map some).length = nEMC := by
    simp [List.length_take]; omega
  have hsplit : digits.map some =
      [] ++ ((digits.take nEMC).map some ++ (digits.drop nEMC).map some) := by
    simp [← List.map_append]
  have h1 := thrScan_append cal eThr ((digits.take nEMC).map some) []
    ((digits.drop nEMC).map some)
    (fun o ho => by obtain ⟨d, hd, rfl⟩ := List.mem_map.mp ho; rfl)
  rw [hmidlen] at h1
  simp only [List.length_nil, List.nil_append] at h1
  have hmid2len : ((digits.drop nEMC).map some).length = nCPV - nEMC := by
    simp [List.length_drop, hlen]
  have h2 := thrScan_append cal cThr ((digits.drop nEMC).map some)
    (((digits.take nEMC).map some).map (markBelow cal eThr)) []
    (fun o ho => by obtain ⟨d, hd, rfl⟩ := List.mem_map.mp ho; rfl)
  rw [hmid2len] at h2
  have hprelen : ((((digits.take nEMC).map some).map (markBelow cal eThr))).length = nEMC := by
    simp [List.length_take]; omega
  rw [hprelen] at h2
  simp only [List.append_nil] at h2
  unfold compactAndIndex
  rw [show (digits.map some) = ((digits.take nEMC).map some ++ (digits.drop nEMC).map some) by
    simpa using hsplit]
  rw [h1]
  dsimp only
  rw [h2]
  dsimp only
  rw [List.filterMap_append]
  rw [filterMap_id_map_markBelow, filterMap_id_map_markBelow]

theorem id_at (digits : List AliPHOSDigit)
    (hid : digits.map AliPHOSDigit.id = List.range' 1 digits.length)
    (k : ℕ) (hk : k < digits.length) : digits[k].id = 1 + k := by
  have h1 : (digits.map AliPHOSDigit.id)[k]? = (List.range' 1 digits.length)[k]? := by
    rw [hid]
  rw [List.getElem?_map, List.getElem?_eq_getElem hk,
    List.getElem?_eq_getElem (by simpa using hk)] at h1
  simpa using h1

theorem take_id_le (digits : List AliPHOSDigit) (n : ℕ)
    (hid : digits.map AliPHOSDigit.id = List.range' 1 digits.length) :
    ∀ d ∈ digits.take n, d.id ≤ n := by
  intro d hd
  obtain ⟨k, hk, rfl⟩ := List.mem_iff_getElem.mp hd
  have hk2 : k < digits.length ∧ k < n := by
    have h9 := hk
    simp only [List.length_take] at h9
    omega
  have hgt : (digits.take n)[k] = digits[k] := List.getElem_take digits
  rw [hgt, id_at digits hid k hk2.1]
  omega

theorem drop_id_gt (digits : List AliPHOSDigit) (n : ℕ)
    (hid : digits.map AliPHOSDigit.id = List.range' 1 digits.length) :
    ∀ d ∈ digits.drop n, ¬ d.id ≤ n := by
  intro d hd
  obtain ⟨k, hk, rfl⟩ := List.mem_iff_getElem.mp hd
  have hk2 : n + k < digits.length := by
    have := hk
    simp only [List.length_drop] at this
    omega
  have hgt : (digits.drop n)[k] = digits[n + k] := List.getElem_drop digits
  rw [hgt, id_at digits hid (n + k) hk2]
  omega

/-- C5: on a full digit list (one digit per channel, slot k holding
channel k+1), compaction is exactly the order-preserving filter that
drops a digit precisely when its calibrated amplitude is strictly below
the threshold of its channel class (EMC threshold for channels up to
nEMC, CPV threshold beyond), followed by dense reindexing. -/
theorem claimC5_threshold_compaction (nEMC nCPV : ℕ) (cal : ℚ → ℚ)
    (eThr cThr : ℚ) (digits : List AliPHOSDigit)
    (hlen : digits.length = nCPV) (hle : nEMC ≤ nCPV)
    (hid : digits.map AliPHOSDigit.id = List.range' 1 digits.length) :
    compactAndIndex nEMC nCPV cal eThr cThr digits =
      Except.ok (setIndexLoop 0 (digits.filter fun d =>
        decide (¬ cal d.amp < if d.id ≤ nEMC then eThr else cThr))) := by
  rw [compactAndIndex_eq nEMC nCPV cal eThr cThr digits hlen hle]
  have hsplit :
      digits.filter (fun d => decide (¬ cal d.amp < if d.id ≤ nEMC then eThr else cThr)) =
        (digits.take nEMC).filter (fun d => decide (¬ cal d.amp < eThr)) ++
        (digits.drop nEMC).filter (fun d => decide (¬ cal d.amp < cThr)) := by
    conv_lhs => rw [← List.take_append_drop nEMC digits]
    rw [List.filter_append]
    congr 1
    · apply List.filter_congr
      intro d hd
      have h := take_id_le digits nEMC hid d hd
      simp [h]
    · apply List.filter_congr
      intro d hd
      have h := drop_id_gt digits nEMC hid d hd
      simp [h]
  rw [hsplit]

theorem setIndexLoop_map_index :
    ∀ (l : List AliPHOSDigit) (i : ℕ),
      (setIndexLoop i l).map AliPHOSDigit.indexInList = List.range' i l.length := by
  intro l
  induction l with
  | nil => intro i; rfl
  | cons d l ih => intro i; simp [setIndexLoop, List.range'_succ, ih]

theorem setIndexLoop_map_id :
    ∀ (l : List AliPHOSDigit) (i : ℕ),
      (setIndexLoop i l).map AliPHOSDigit.id = l.map AliPHOSDigit.id := by
  intro l
  induction l with
  | nil => intro i; rfl
  | cons d l ih => intro i; simp [setIndexLoop, ih]

theorem setIndexLoop_length (l : List AliPHOSDigit) :
    ∀ i, (setIndexLoop i l).length = l.length := by
  induction l with
  | nil => intro i; rfl
  | cons d l ih => intro i; simp [setIndexLoop, ih]

/-- C6: on a full digit list, the listIndex values of the surviving
digits after compaction are exactly 0, 1, ..., count-1 in order, and the
surviving channel ids are strictly increasing (ascending channel
order). -/
theorem claimC6_index_density (nEMC nCPV : ℕ) (cal : ℚ → ℚ) (eThr cThr : ℚ)
    (digits out : List AliPHOSDigit)
    (hlen : digits.length = nCPV) (hle : nEMC ≤ nCPV)
    (hid : digits.map AliPHOSDigit.id = List.range' 1 digits.length)
    (hout : compactAndIndex nEMC nCPV cal eThr cThr digits = Except.ok out) :
    out.map AliPHOSDigit.indexInList = List.range out.length ∧
      List.Pairwise (· < ·) (out.map AliPHOSDigit.id) := by
  rw [compactAndIndex_eq nEMC nCPV cal eThr cThr digits hlen hle] at hout
  have hout2 := Except.ok.inj hout
  subst hout2
  constructor
  · rw [setIndexLoop_map_index, setIndexLoop_length, List.range_eq_range']
  · rw [setIndexLoop_map_id]
    have hsub : ((digits.take nEMC).filter (fun d => decide (¬ cal d.amp < eThr)) ++
        (digits.drop nEMC).filter (fun d => decide (¬ cal d.amp < cThr))).Sublist digits := by
      conv_rhs => rw [← List.take_append_drop nEMC digits]
      exact (List.filter_sublist _).append (List.filter_sublist _)
    have hpw : List.Pairwise (· < ·) (digits.map AliPHOSDigit.id) := by
      rw [hid]
      exact List.pairwise_lt_range' 1 digits.length
    exact List.Pairwise.sublist (List.Sublist.map AliPHOSDigit.id hsub) hpw

/-- C5 witness: the compaction theorem applied to the concrete
two-digit list digitsC5 with EMC threshold 1/100 and CPV threshold
9/100. -/
theorem claimC5_threshold_compaction_witness :
    compactAndIndex 1 2 idCalib (1/100) (9/100) digitsC5 =
      Except.ok (setIndexLoop 0 (digitsC5.filter fun d =>
        decide (¬ idCalib d.amp < if d.id ≤ 1 then 1/100 else 9/100))) := by
  exact claimC5_threshold_compaction 1 2 idCalib (1/100) (9/100) digitsC5 rfl
    (by decide) (by decide)

/-- C6 witness: the index-density theorem applied to the concrete
two-digit list digitsC5; the surviving digit list is channel 1 with
listIndex 0. -/
theorem claimC6_index_density_witness :
    [(⟨1, 1, 1, [], 0⟩ : AliPHOSDigit)].map AliPHOSDigit.indexInList =
        List.range ([(⟨1, 1, 1, [], 0⟩ : AliPHOSDigit)].length) ∧
      List.Pairwise (· < ·) ([(⟨1, 1, 1, [], 0⟩ : AliPHOSDigit)].map AliPHOSDigit.id) := by
  have hout : compactAndIndex 1 2 idCalib (1/100) (9/100) digitsC5 =
      Except.ok [(⟨1, 1, 1, [], 0⟩ : AliPHOSDigit)] := by
    norm_num [compactAndIndex, thrScan, setIndexLoop, digitsC5, mkRec, idCalib]
  exact claimC6_index_density 1 2 idCalib (1/100) (9/100) digitsC5 _ rfl
    (by decide) (by decide) hout

theorem drainCPV_time (s : List AliPHOSDigit) (mask : Option (ℕ → ℤ)) (i absID : ℕ) :
    ∀ (fuel : ℕ) (digit : AliPHOSDigit) (idx : ℕ),
      (drainCPV s mask i absID fuel digit idx).1.time = digit.time := by
  intro fuel
  induction fuel with
  | zero => intro digit idx; rfl
  | succ fuel ih =>
    intro digit idx
    rw [drainCPV]
    cases hget : s[idx]? with
    | none => rfl
    | some cur =>
      dsimp only
      by_cases hc : cur.id = absID
      · rw [if_pos hc, ih]
        rfl
      · rw [if_neg hc]

theorem cpvStreamsLoop_time (mask : Option (ℕ → ℤ)) (absID : ℕ) :
    ∀ (streams : List (List AliPHOSDigit)) (i : ℕ) (index : List ℕ)
      (digit : AliPHOSDigit),
      (cpvStreamsLoop mask absID streams i index digit).1.time = digit.time := by
  intro streams
  induction streams with
  | nil => intro i index digit; rfl
  | cons s rest ih =>
    intro i index digit
    rw [show (cpvStreamsLoop mask absID (s :: rest) i index digit).1 =
      (cpvStreamsLoop mask absID rest (i + 1) index.tail
        (drainCPV s mask i absID (s.length + 1) digit (index.headD 0)).1).1 from rfl]
    rw [ih, drainCPV_time]

/-- Every TArrayF produced by the implicit TArrayF(Int_t) conversion is
zero-filled. -/
theorem ofInt_allZero (n : ℤ) : ∀ x ∈ (TArrayF.ofInt n).data, x = 0 := by
  intro x hx
  simp only [TArrayF.ofInt] at hx
  exact List.eq_of_mem_replicate hx

theorem scratchAssign_allZero (i : ℕ) (v : ℚ) (b : TArrayF)
    (h : scratchAssign i v = Except.ok b) : ∀ x ∈ b.data, x = 0 := by
  unfold scratchAssign at h
  split at h
  · injection h with h2
    rw [← h2]
    exact ofInt_allZero _
  · exact absurd h (by simp)

theorem drainEMC_allZero (s : List AliPHOSDigit) (mask : Option (ℕ → ℤ)) (i absID : ℕ) :
    ∀ (fuel : ℕ) (digit : AliPHOSDigit) (en tm : TArrayF) (contrib idx : ℕ) (r : DrainOut),
      (∀ x ∈ tm.data, x = 0) →
      drainEMC s mask i absID fuel digit en tm contrib idx = Except.ok r →
      ∀ x ∈ r.times.data, x = 0 := by
  intro fuel
  induction fuel with
  | zero =>
    intro digit en tm contrib idx r htm h
    injection h with h2
    rw [← h2]
    exact htm
  | succ fuel ih =>
    intro digit en tm contrib idx r htm h
    rw [drainEMC] at h
    cases hget : s[idx]? with
    | none =>
      rw [hget] at h
      dsimp only at h
      injection h with h2
      rw [← h2]
      exact htm
    | some cur =>
      rw [hget] at h
      dsimp only at h
      by_cases hc : cur.id = absID
      · rw [if_pos hc] at h
        cases hen : scratchAssign contrib cur.amp with
        | error e =>
          rw [hen] at h
          exact absurd h (by simp)
        | ok en2 =>
          rw [hen] at h
          dsimp only at h
          cases htm2 : scratchAssign contrib cur.time with
          | error e =>
            rw [htm2] at h
            exact absurd h (by simp)
          | ok tm2 =>
            rw [htm2] at h
            dsimp only at h
            exact ih _ en2 tm2 _ _ r (scratchAssign_allZero _ _ _ htm2) h
      · rw [if_neg hc] at h
        injection h with h2
        rw [← h2]
        exact htm

theorem emcStreamsLoop_allZero (mask : Option (ℕ → ℤ)) (absID : ℕ) :
    ∀ (streams : List (List AliPHOSDigit)) (i : ℕ) (index : List ℕ)
      (digit : AliPHOSDigit) (en tm : TArrayF) (contrib : ℕ) (r : LoopOut),
      (∀ x ∈ tm.data, x = 0) →
      emcStreamsLoop mask absID streams i index digit en tm contrib = Except.ok r →
      ∀ x ∈ r.times.data, x = 0 := by
  intro streams
  induction streams with
  | nil =>
    intro i index digit en tm contrib r htm h
    injection h with h2
    rw [← h2]
    exact htm
  | cons s rest ih =>
    intro i index digit en tm contrib r htm h
    rw [emcStreamsLoop] at h
    cases hd : drainEMC s mask i absID (s.length + 1) digit en tm contrib
        (index.headD 0) with
    | error e =>
      rw [hd] at h
      exact absurd h (by simp)
    | ok d =>
      rw [hd] at h
      dsimp only at h
      cases hr : emcStreamsLoop mask absID rest (i + 1) index.tail d.digit d.energies
          d.times d.contrib with
      | error e =>
        rw [hr] at h
        exact absurd h (by simp)
      | ok r2 =>
        rw [hr] at h
        dsimp only at h
        injection h with h2
        rw [← h2]
        exact ih (i + 1) index.tail d.digit d.energies d.times d.contrib r2
          (drainEMC_allZero s mask i absID (s.length + 1) digit en tm contrib
            (index.headD 0) d htm hd) hr

/-- FrontEdgeTime of a zero-filled times array is 0: the very first
read yields 0 and ends the while scan after initializing time to the
same 0. -/
theorem FrontEdgeTime_allZero (en a : TArrayF) (h : ∀ x ∈ a.data, x = 0) :
    FrontEdgeTime en a = 0 := by
  have hget : a.get 0 = 0 := by
    unfold TArrayF.get
    cases hd : a.data with
    | nil => rfl
    | cons x l =>
      simp only [List.getD_cons_zero]
      exact h x (by rw [hd]; exact List.mem_cons_self x l)
  show frontEdgeLoop a (a.data.length + 1 + 1) (a.get 0) (a.get 0) 1 = 0
  rw [frontEdgeLoop, hget]
  rw [if_pos rfl]

theorem emcSignalChannel_time_zero (streams : List (List AliPHOSDigit))
    (mask : Option (ℕ → ℤ)) (absID : ℕ) (digit : AliPHOSDigit) (index : List ℕ)
    (en tm : TArrayF) (r : SignalOut)
    (h : emcSignalChannel streams mask absID digit index en tm = Except.ok r) :
    r.digit.time = 0 := by
  unfold emcSignalChannel at h
  rw [show scratchAssign 0 digit.amp =
    Except.ok (TArrayF.ofInt (cppTruncInt digit.amp)) from rfl] at h
  dsimp only at h
  rw [show scratchAssign 0 digit.time =
    Except.ok (TArrayF.ofInt (cppTruncInt digit.time)) from rfl] at h
  dsimp only at h
  cases hloop : emcStreamsLoop mask absID streams 0 index digit
      (TArrayF.ofInt (cppTruncInt digit.amp)) (TArrayF.ofInt (cppTruncInt digit.time))
      0 with
  | error e =>
    rw [hloop] at h
    exact absurd h (by simp)
  | ok r2 =>
    rw [hloop] at h
    dsimp only at h
    injection h with h2
    rw [← h2]
    exact FrontEdgeTime_allZero r2.energies r2.times
      (emcStreamsLoop_allZero mask absID streams 0 index digit
        (TArrayF.ofInt (cppTruncInt digit.amp)) (TArrayF.ofInt (cppTruncInt digit.time))
        0 r2 (ofInt_allZero _) hloop)

/-- C3 amended: the spec time derivation does not survive the scratch
implementation. Every EMC signal channel whose processing completes has
its digit time set to 0 - the pointer-subscript assignments replace the
times array with a zero-filled TArrayF, so FrontEdgeTime scans zeros
and never sees the drained times. Draining a second record into the
same channel is undefined behaviour: the third conjunct runs the spec
example of three contributions at times 7, 3 and 9 into exactly that
error. CPV digits keep the noise sentinel time unconditionally, since
the CPV loop derives no time at all; only a channel with no signal
contribution keeps the sentinel the way the claim states. -/
theorem claimC3_time_derivation :
    (∀ (streams : List (List AliPHOSDigit)) (mask : Option (ℕ → ℤ)) (absID : ℕ)
        (digit : AliPHOSDigit) (index : List ℕ) (en tm : TArrayF) (r : SignalOut),
        emcSignalChannel streams mask absID digit index en tm = Except.ok r →
        r.digit.time = 0) ∧
    (∀ (mask : Option (ℕ → ℤ)) (absID : ℕ) (streams : List (List AliPHOSDigit))
        (i : ℕ) (index : List ℕ) (digit : AliPHOSDigit),
        (cpvStreamsLoop mask absID streams i index digit).1.time = digit.time) ∧
    emcSignalChannel streams3 none 1 ⟨1, 0, 1, [], 0⟩ [0, 0, 0] ⟨[0, 0, 0]⟩
        ⟨[0, 0, 0]⟩ =
      Except.error DigErr.oobArrayAssign := by
  refine ⟨emcSignalChannel_time_zero, cpvStreamsLoop_time, ?_⟩
  norm_num [emcSignalChannel, emcStreamsLoop, drainEMC, scratchAssign, TArrayF.ofInt,
    cppTruncInt, streams3, mkRec, addDigit, ShiftPrimary, primaryOffset]

/-- C3 witness: the EMC part applied to the single-record stream
streamsOne (one record on channel 1 at time 7): processing completes
and the digit time is 0, not 7; the CPV part applied to a channel-2
digit seeded with the sentinel time 1. -/
theorem claimC3_time_derivation_witness :
    (SignalOut.mk ⟨1, 3, 0, [], 0⟩ [1] ⟨[0, 0, 0]⟩
        ⟨[0, 0, 0, 0, 0, 0, 0]⟩).digit.time = 0 ∧
    (cpvStreamsLoop none 2 streamsOne 0 [0] ⟨2, 0, 1, [], 0⟩).1.time = 1 := by
  constructor
  · exact claimC3_time_derivation.1 streamsOne none 1 ⟨1, 0, 1, [], 0⟩ [0] ⟨[0]⟩ ⟨[0]⟩
      (SignalOut.mk ⟨1, 3, 0, [], 0⟩ [1] ⟨[0, 0, 0]⟩ ⟨[0, 0, 0, 0, 0, 0, 0]⟩)
      (by
        norm_num [emcSignalChannel, emcStreamsLoop, drainEMC, scratchAssign,
          TArrayF.ofInt, cppTruncInt, FrontEdgeTime, frontEdgeLoop, TArrayF.get,
          TArrayF.reset, addDigit, ShiftPrimary, primaryOffset, streamsOne, mkRec]
        decide)
  · exact claimC3_time_derivation.2.1 none 2 streamsOne 0 [0] ⟨2, 0, 1, [], 0⟩
